import Mathlib

/-!
Verification of the Bayesian-network inference core of `bayes.py`: the node
data model with its conditional probability table, the d-separation checker
(`IndependenceChecker`), the weighted-sample aggregation loop (`Sampler.run`)
and the Gibbs sampler.  GUI state (canvas items, coordinates, drawing handles)
is dropped; nodes refer to their parents and children by name, which among the
live nodes of a network coincides with the source's object identity because
live nodes carry unique names.  Probabilities are modelled as rationals.
-/

namespace Bayes

/-- A node of the Bayes net (`BayesNode` in the source).  `parents` and
`children` are the adjacency lists in insertion order, recorded by node name;
`prob` is the conditional probability table keyed by the parent-assignment
bitmask, with missing entries defaulting to `1/2`. -/
structure BayesNode where
  name : Int
  parents : List Int
  children : List Int
  prob : List (Nat × ℚ)
deriving DecidableEq

/-- A network is the list of live nodes (`nodes.values()` in the source). -/
abbrev Net := List BayesNode

/-- Look up a node by name (`self.nodes[n]`).  A name that is not live resolves
to an isolated placeholder carrying that name; the source would raise a
`KeyError` there, but the placeholder is only reachable outside the live
domain and has no parents and no children. -/
def findNode (net : Net) (n : Int) : BayesNode :=
  (net.find? fun node => node.name == n).getD ⟨n, [], [], []⟩

/-- Parent-assignment bitmask of `BayesNode.getProbability`: starting from
`index = 1`, each parent in insertion order contributes its current `index`
when its name occurs in `evidence`, and `index` doubles at every step. -/
def evalueOf : List Int → List Int → Nat → Nat
  | [], _, _ => 0
  | p :: ps, evidence, index =>
    (if p ∈ evidence then index else 0) + evalueOf ps evidence (index * 2)

/-- Probability lookup in the table (`BayesNode.getProbability`), defaulting to
`1/2` when the bitmask has no entry. -/
def BayesNode.getProbability (node : BayesNode) (evidence : List Int) : ℚ :=
  (node.prob.lookup (evalueOf node.parents evidence 1)).getD (1 / 2)

/-- State-flip probability (`BayesNode.computeProbability`), used by the Gibbs
sampler: the own-truth factor times one factor per child, every child resolved
among the live nodes of `net`. -/
def computeProbability (net : Net) (node : BayesNode) (values : List Int) : ℚ :=
  node.children.foldl
    (fun result cn =>
      if (findNode net cn).name ∈ values then
        result * (1 - (findNode net cn).getProbability values)
      else result * (findNode net cn).getProbability values)
    (if node.name ∈ values then 1 - node.getProbability values
     else node.getProbability values)

/-- Child insertion (`BayesNode.addChild`, the drawing handle dropped): fails
on a self-loop or an already-recorded child, leaving the node unchanged, and
otherwise appends the new child; object identity of the source is name
equality among live nodes. -/
def BayesNode.addChild (node other : BayesNode) : Bool × BayesNode :=
  if other.name == node.name then (false, node)
  else if other.name ∈ node.children then (false, node)
  else (true, { node with children := node.children ++ [other.name] })

/-- Membership test `BayesNode.isChild`: `other` is a recorded child. -/
def BayesNode.isChild (node other : BayesNode) : Bool :=
  decide (other.name ∈ node.children)

/-- Membership test `BayesNode.isParent`: `other` is a recorded parent. -/
def BayesNode.isParent (node other : BayesNode) : Bool :=
  decide (other.name ∈ node.parents)

/-- Undirected neighbor names visited by the path search:
`self.nodes[node].children + self.nodes[node].parents`. -/
def neighbors (net : Net) (n : Int) : List Int :=
  (findNode net n).children ++ (findNode net n).parents

/-- Queue-driven path search of `IndependenceChecker.getPaths`, made total
with fuel: each step dequeues one `(node, path)` entry, appends `path` to the
results when `node` is the target `b`, adds `node` to the single global
visited set, and enqueues `(m, path ++ [m])` for every neighbor `m` not yet
visited.  The visited set is shared across branches exactly as in the
source. -/
def bfsPaths (net : Net) (b : Int) :
    Nat → List Int → List (Int × List Int) → List (List Int) → List (List Int)
  | _, _, [], paths => paths
  | 0, _, _, paths => paths
  | fuel + 1, visited, (node, path) :: queue, paths =>
    let paths := if node == b then paths ++ [path] else paths
    let visited := node :: visited
    let extensions :=
      ((neighbors net node).filter fun m => decide (m ∉ visited)).map
        fun m => (m, path ++ [m])
    bfsPaths net b fuel visited (queue ++ extensions) paths

/-- Bound used to provision fuel for the path search: one more than the total
number of adjacency-list entries and nodes. -/
def fuelBound (net : Net) : Nat :=
  1 + (net.map fun node => 1 + node.children.length + node.parents.length).sum

/-- All paths the source's loop produces (`IndependenceChecker.getPaths`).
Every queue entry carries a duplicate-free path whose steps follow
adjacency-list occurrences, so fewer than `fuelBound net ^ (net.length + 1)`
entries are ever enqueued and the provisioned fuel always drains the queue;
the fueled search therefore agrees with the source wherever it terminates. -/
def getPaths (net : Net) (a b : Int) : List (List Int) :=
  bfsPaths net b (fuelBound net ^ (net.length + 1) + 1) [] [(a, [a])] []

/-- Causal-chain test (`IndependenceChecker.isCausalChain`): `a → b → c` read
off the children lists, or `c → b → a` read off the parents lists. -/
def isCausalChain (net : Net) (a b c : Int) : Bool :=
  ((findNode net a).isChild (findNode net b) &&
    (findNode net b).isChild (findNode net c)) ||
  ((findNode net a).isParent (findNode net b) &&
    (findNode net b).isParent (findNode net c))

/-- Common-cause test (`IndependenceChecker.isCommonCause`): `b` is a recorded
parent of both `a` and `c`. -/
def isCommonCause (net : Net) (a b c : Int) : Bool :=
  (findNode net a).isParent (findNode net b) &&
    (findNode net c).isParent (findNode net b)

/-- Descendant-evidence search (`IndependenceChecker.hasEvidence`), made total
with fuel: the source recurses through the children lists; on an acyclic
network a descendant chain has strictly decreasing topological rank, so the
fuel `net.length + 1` supplied by `isActive` never runs out where the source
terminates. -/
def hasEvidence (net : Net) : Nat → Int → List Int → Bool
  | 0, _, _ => false
  | fuel + 1, n, evidence =>
    decide (n ∈ evidence) ||
      (findNode net n).children.any fun c => hasEvidence net fuel c evidence

/-- Active-triple test (`IndependenceChecker.isActive`): a causal chain or a
common cause is active exactly when the middle node carries no evidence;
anything else falls through to the descendant-evidence search. -/
def isActive (net : Net) (a b c : Int) (evidence : List Int) : Bool :=
  if b ∈ evidence then
    if isCausalChain net a b c then false
    else if isCommonCause net a b c then false
    else hasEvidence net (net.length + 1) b evidence
  else
    if isCausalChain net a b c then true
    else if isCommonCause net a b c then true
    else hasEvidence net (net.length + 1) b evidence

/-- Path check (`IndependenceChecker.checkPath`): scan the consecutive triples
from the left; an inactive triple blocks the path (result `true`), and a path
whose triples are all active, in particular a path shorter than three nodes,
is fully active (result `false`). -/
def checkPath (net : Net) (path evidence : List Int) : Bool :=
  match path with
  | x :: y :: z :: rest =>
    if isActive net x y z evidence then checkPath net (y :: z :: rest) evidence
    else true
  | _ => false

/-- Independence check (`IndependenceChecker.checkIndependence`): `a` and `b`
are reported independent exactly when every enumerated path is blocked. -/
def checkIndependence (net : Net) (a b : Int) (evidence : List Int) : Bool :=
  (getPaths net a b).all fun path => checkPath net path evidence

/-- Outcomes of `IndependenceChecker.__init__` under Python 3 semantics. -/
inductive InitOutcome where
  | attributeError
  | nameError
  | invalidQuery
  | invalidEvidence
  | checked (result : Bool)
deriving DecidableEq

/-- Validation phase of `IndependenceChecker.__init__`, with the Python 3
runtime errors of the source made explicit: after the magnitudes of evidence
and query are taken, the loop `for n in query: if not self.nodes.has_key(n)`
raises `AttributeError` on its first iteration whenever the query is
non-empty, because Python 3 dictionaries have no `has_key` method; an empty
query leaves `valid` false (its length is not two) and reaches
`tkMessageBox.showwarning`, an undefined name in this module, raising
`NameError`.  The warning dialogs and the call to `checkIndependence` are
unreachable. -/
def checkerInit (_net : Net) (query evidence : List Int) : InitOutcome :=
  let _evidenceAbs := evidence.map fun n => |n|
  let queryAbs := query.map fun n => |n|
  match queryAbs with
  | [] => InitOutcome.nameError
  | _ :: _ => InitOutcome.attributeError

/-- Consistency of a sample with a set of signed literals (`Sampler.matches`):
a positive literal must occur in the sample and a negative literal's magnitude
must be absent from it. -/
def sampleMatches (sample values : List Int) : Bool :=
  values.all fun v => if v > 0 then decide (v ∈ sample) else decide (-v ∉ sample)

/-- Accumulator update of `Sampler.run` for one weighted sample: an
evidence-consistent sample adds its weight to the denominator, and also to the
numerator when it is query-consistent. -/
def runStep (evidence query : List Int) (acc : ℚ × ℚ) (ws : ℚ × List Int) : ℚ × ℚ :=
  if sampleMatches ws.2 evidence then
    ((if sampleMatches ws.2 query then acc.1 + ws.1 else acc.1), acc.2 + ws.1)
  else acc

/-- Numerator and denominator of `Sampler.run` after the whole stream, both
starting at zero. -/
def runTotals (evidence query : List Int) (samples : List (ℚ × List Int)) : ℚ × ℚ :=
  samples.foldl (runStep evidence query) (0, 0)

/-- Terminal outcome of `Sampler.run`: the "No samples matched the evidence."
message is a distinct non-numeric outcome. -/
inductive RunOutcome where
  | noSamplesMatched
  | estimate (value : ℚ)
deriving DecidableEq

/-- Final report of `Sampler.run`: the message when the denominator is zero,
the quotient otherwise. -/
def runResult (evidence query : List Int) (samples : List (ℚ × List Int)) : RunOutcome :=
  if (runTotals evidence query samples).2 = 0 then RunOutcome.noSamplesMatched
  else
    RunOutcome.estimate
      ((runTotals evidence query samples).1 / (runTotals evidence query samples).2)

/-- Initial Gibbs state (`GibbsSampler.__init__`): the positive evidence
literals. -/
def gibbsInitState (evidence : List Int) : List Int :=
  evidence.filter fun e => e > 0

/-- Gibbs working variables (`GibbsSampler.__init__`): the nodes whose name
does not occur in the evidence by magnitude. -/
def gibbsVariables (nodes : Net) (evidence : List Int) : Net :=
  nodes.filter fun n => decide (n.name ∉ evidence.map fun e => |e|)

/-- One Gibbs update (`GibbsSampler.gibbsSample` body) for a chosen node, the
uniform draw `random.random()` supplied as `r`: when `r` falls below the flip
probability the chosen node's membership in the state is toggled, a list
append or a first-occurrence removal exactly as in the source. -/
def gibbsStep (net : Net) (state : List Int) (node : BayesNode) (r : ℚ) : List Int :=
  if r < computeProbability net node state then
    if node.name ∉ state then state ++ [node.name]
    else if node.name ∈ state then state.erase node.name
    else state
  else state

/-- Persistent state after a sequence of Gibbs iterations, each pick pairing
the chosen working-set node with its uniform draw. -/
def gibbsRunState (net : Net) (picks : List (BayesNode × ℚ)) (state : List Int) : List Int :=
  picks.foldl (fun st pr => gibbsStep net st pr.1 pr.2) state

/-- Model of `random.choice(self.variables)` with the random index supplied:
choosing from an empty working set raises `IndexError` in the source,
modelled as `none`. -/
def gibbsChoose (vars : Net) (k : Nat) : Option BayesNode :=
  match vars with
  | [] => none
  | v :: vs => some ((v :: vs).getD (k % (vs.length + 1)) v)

/-- One `gibbsSample` call returning the emitted weighted sample, `none` when
the choice of a working-set node fails. -/
def gibbsSampleStep (net vars : Net) (state : List Int) (k : Nat) (r : ℚ) :
    Option (ℚ × List Int) :=
  (gibbsChoose vars k).map fun node => ((1 : ℚ), gibbsStep net state node r)

/-- The iteration loop of `Sampler.run` driving `gibbsSample`, one oracle
entry per iteration; an `IndexError` raised inside an iteration aborts the
whole run, so no result of any kind is produced (`none`). -/
def gibbsLoop (net vars : Net) : List Int → List (Nat × ℚ) → Option (List Int)
  | state, [] => some state
  | state, (k, r) :: rest =>
    match gibbsSampleStep net vars state k r with
    | none => none
    | some (_, st) => gibbsLoop net vars st rest

/-- Directed edge `u → v` of the network, read off the children list of `u`. -/
def EdgeTo (net : Net) (u v : Int) : Prop :=
  v ∈ (findNode net u).children

/-- Mirror invariant of program-built networks: every recorded parent link has
the matching child link and conversely (the editor's `stopLine` always calls
`addChild` and `addParent` in pairs, and `remove` deletes both sides). -/
abbrev Mirrored (net : Net) : Prop :=
  (∀ node ∈ net, ∀ p ∈ node.parents, node.name ∈ (findNode net p).children) ∧
  (∀ node ∈ net, ∀ c ∈ node.children, node.name ∈ (findNode net c).parents)

/-- Causal chain of the claim: `x → y → z` or `x ← y ← z`. -/
def CausalChainSpec (net : Net) (x y z : Int) : Prop :=
  (EdgeTo net x y ∧ EdgeTo net y z) ∨ (EdgeTo net z y ∧ EdgeTo net y x)

/-- Common cause of the claim: `x ← y → z`. -/
def CommonCauseSpec (net : Net) (x y z : Int) : Prop :=
  EdgeTo net y x ∧ EdgeTo net y z

/-- Descendant relation reached by recursively following children, the node
itself included. -/
inductive Reaches (net : Net) : Int → Int → Prop where
  | refl (n : Int) : Reaches net n n
  | step {n c d : Int} :
      c ∈ (findNode net n).children → Reaches net c d → Reaches net n d

/-- Active-triple rule as the claim states it: a causal chain or common cause
is active iff the middle node carries no evidence, and otherwise (a collider)
the triple is active iff the middle node or some descendant of it carries
evidence. -/
def ActiveSpec (net : Net) (x y z : Int) (evidence : List Int) : Prop :=
  ((CausalChainSpec net x y z ∨ CommonCauseSpec net x y z) ∧ y ∉ evidence) ∨
  (¬(CausalChainSpec net x y z ∨ CommonCauseSpec net x y z) ∧
    (y ∈ evidence ∨ ∃ d, Reaches net y d ∧ d ∈ evidence))

/-- Modelled from the words of the claim about `computeFlipProbability`: the
own-truth factor times, for every child, "the child's CPT-probability of the
value consistent with currentState, i.e. c.getProbability(currentState) if
c's identifier is in currentState and 1 - c.getProbability(currentState)
otherwise"; written to be compared with `computeProbability` as the source
defines it. -/
def computeProbabilitySpec (net : Net) (node : BayesNode) (values : List Int) : ℚ :=
  (if node.name ∈ values then 1 - node.getProbability values
   else node.getProbability values) *
  (node.children.map fun cn =>
    if (findNode net cn).name ∈ values then (findNode net cn).getProbability values
    else 1 - (findNode net cn).getProbability values).prod

/-- Undirected adjacency of the claim about `getPaths`: a node's undirected
neighbors are its parents and children. -/
def undirAdj (net : Net) (x y : Int) : Bool :=
  decide (y ∈ (findNode net x).children) || decide (y ∈ (findNode net x).parents)

/-- Consecutive entries of the list are adjacent in the undirected view. -/
def undirChain (net : Net) : List Int → Bool
  | x :: y :: rest => undirAdj net x y && undirChain net (y :: rest)
  | _ => true

/-- A simple undirected path from `a` to `b`: it starts at `a`, ends at `b`,
repeats no node, and walks undirected edges. -/
abbrev SimpleUndirPath (net : Net) (a b : Int) (p : List Int) : Prop :=
  p.head? = some a ∧ p.getLast? = some b ∧ p.Nodup ∧ undirChain net p = true

/-- Four-node network with edges 1→2, 2→3, 3→4 and 1→4, built in that
insertion order (adjacency lists mirror the paired `addChild`/`addParent`
calls of the editor). -/
def netDiamond : Net :=
  [⟨1, [], [2, 4], []⟩, ⟨2, [1], [3], []⟩, ⟨3, [2], [4], []⟩, ⟨4, [3, 1], [], []⟩]

/-- Four-node network with edges 1→2, 1→3, 2→3 and 4→2, built in that
insertion order. -/
def netAsym : Net :=
  [⟨1, [], [2, 3], []⟩, ⟨2, [1, 4], [3], []⟩, ⟨3, [1, 2], [], []⟩, ⟨4, [], [2], []⟩]

/-- Topological rank of `netAsym`, witnessing its acyclicity. -/
def rankAsym : Int → Nat :=
  fun n => if n = 1 then 3 else if n = 4 then 3 else if n = 2 then 2
    else if n = 3 then 1 else 0

/-- Single isolated node, for the self-query counterexample. -/
def netSelf : Net := [⟨1, [], [], []⟩]

/-- Two isolated nodes, between which no undirected path exists. -/
def netTwoIso : Net := [⟨1, [], [], []⟩, ⟨2, [], [], []⟩]

/-- Parentless node with conditional probability table `{0: 0}` and the single
child `2`, for evaluating the flip probability. -/
def flipNode : BayesNode := ⟨1, [], [2], [(0, 0)]⟩

/-- Child of `flipNode` with table `{0: 1/8, 1: 1/4}`. -/
def flipChild : BayesNode := ⟨2, [1], [], [(0, 1 / 8), (1, 1 / 4)]⟩

/-- Two-node network `1 → 2` carrying the tables of `flipNode` and
`flipChild`. -/
def flipNet : Net := [flipNode, flipChild]

/-- Three isolated nodes for exercising the Gibbs clamp. -/
def gibbsNodes : Net := [⟨1, [], [], []⟩, ⟨2, [], [], []⟩, ⟨3, [], [], []⟩]

/-- Two Gibbs picks of the sole working-set node of `gibbsNodes` under the
evidence `[1, -3]`, with uniform draw zero. -/
def gibbsPicks : List (BayesNode × ℚ) :=
  [(⟨2, [], [], []⟩, 0), (⟨2, [], [], []⟩, 0)]

/-- Name lookup always yields a node carrying the requested name. -/
theorem findNode_name (net : Net) (n : Int) : (findNode net n).name = n := by
  unfold findNode
  cases h : net.find? fun node => node.name == n with
  | none => rfl
  | some node =>
    have hp := List.find?_some h
    simpa using hp

/-- A looked-up node is live or the isolated placeholder. -/
theorem findNode_cases (net : Net) (n : Int) :
    findNode net n ∈ net ∨ findNode net n = ⟨n, [], [], []⟩ := by
  unfold findNode
  cases h : net.find? fun node => node.name == n with
  | none => exact Or.inr rfl
  | some node =>
    exact Or.inl (by simpa using List.mem_of_find?_eq_some h)

/-- C9: `addChild(c)` on a node `n` fails, returning `false` and leaving `n`
unchanged, exactly when `c` is `n` itself or is already a recorded child;
otherwise it returns `true` and appends `c` to the children list. -/
theorem addChild_spec (n c : BayesNode) :
    ((c.name = n.name ∨ c.name ∈ n.children) →
      (n.addChild c).1 = false ∧ (n.addChild c).2 = n) ∧
    (c.name ≠ n.name → c.name ∉ n.children →
      (n.addChild c).1 = true ∧
        (n.addChild c).2.children = n.children ++ [c.name]) := by
  unfold BayesNode.addChild
  constructor
  · rintro (h | h)
    · simp [h]
    · by_cases hn : c.name = n.name <;> simp [hn, h]
  · intro h1 h2
    simp [h1, h2]

/-- Witness for `addChild_spec` at concrete nodes. -/
theorem addChild_spec_witness :
    ((⟨1, [], [2], []⟩ : BayesNode).addChild ⟨2, [], [], []⟩).1 = false ∧
    ((⟨1, [], [2], []⟩ : BayesNode).addChild ⟨3, [], [], []⟩).2.children = [2, 3] :=
  ⟨((addChild_spec ⟨1, [], [2], []⟩ ⟨2, [], [], []⟩).1 (Or.inr (by decide))).1,
   by
    have h := ((addChild_spec ⟨1, [], [2], []⟩ ⟨3, [], [], []⟩).2
      (by decide) (by decide)).2
    simpa using h⟩

/-- A left fold that multiplies by one of two factors per element is the
starting value times the product of the chosen factors. -/
theorem foldl_mul_ite (p : Int → Prop) [DecidablePred p] (f g : Int → ℚ) :
    ∀ (l : List Int) (start : ℚ),
      l.foldl (fun r x => if p x then r * f x else r * g x) start =
        start * (l.map fun x => if p x then f x else g x).prod := by
  intro l
  induction l with
  | nil => intro start; simp
  | cons x xs ih =>
    intro start
    by_cases hx : p x <;> simp [hx, ih, mul_assoc]

/-- C4 counterexample: at the network `1 → 2` with tables `{0: 0}` for node 1
and `{0: 1/8, 1: 1/4}` for node 2, and current state `{1, 2}`, the code's
flip probability is `(1 - 0) * (1 - 1/4) = 3/4`, while the claimed formula
(child factor `c.getProbability` when the child is in the state) yields
`(1 - 0) * 1/4 = 1/4`; the claim is false as stated. -/
theorem computeProbability_claim_cx :
    computeProbability flipNet flipNode [1, 2] = 3 / 4 ∧
    computeProbabilitySpec flipNet flipNode [1, 2] = 1 / 4 ∧
    computeProbability flipNet flipNode [1, 2] ≠
      computeProbabilitySpec flipNet flipNode [1, 2] := by
  have h1 : computeProbability flipNet flipNode [1, 2] = (1 - 0) * (1 - 1 / 4) := rfl
  have h2 : computeProbabilitySpec flipNet flipNode [1, 2] =
      (1 - 0) * List.prod [(1 : ℚ) / 4] := rfl
  refine ⟨?_, ?_, ?_⟩
  · rw [h1]; norm_num
  · rw [h2]; simp
  · rw [h1, h2]; norm_num

/-- C4 amended: `computeProbability` is the product of the own-truth factor
(`1 - getProbability` when the node is in the state, `getProbability`
otherwise) and, for every child, `1 - c.getProbability(currentState)` when
the child's identifier is in the state and `c.getProbability(currentState)`
otherwise — the child branches are the reverse of the claimed ones. -/
theorem computeProbability_product (net : Net) (node : BayesNode)
    (values : List Int) :
    computeProbability net node values =
      (if node.name ∈ values then 1 - node.getProbability values
       else node.getProbability values) *
      (node.children.map fun cn =>
        if (findNode net cn).name ∈ values then
          1 - (findNode net cn).getProbability values
        else (findNode net cn).getProbability values).prod := by
  unfold computeProbability
  exact foldl_mul_ite (fun cn => (findNode net cn).name ∈ values)
    (fun cn => 1 - (findNode net cn).getProbability values)
    (fun cn => (findNode net cn).getProbability values) node.children _

/-- C2: on the network with edges 1→2, 2→3, 3→4 and 1→4 the path search from
1 to 4 returns only the direct edge, although `[1, 2, 3, 4]` is a simple
undirected path between them: the shared visited set prunes it. -/
theorem getPaths_misses_simple_path :
    getPaths netDiamond 1 4 = [[1, 4]] ∧
    SimpleUndirPath netDiamond 1 4 [1, 2, 3, 4] ∧
    [1, 2, 3, 4] ∉ getPaths netDiamond 1 4 := by
  refine ⟨by decide, by decide, by decide⟩

/-- C6: on the network with edges 1→2, 1→3, 2→3 and 4→2 under evidence `{2}`,
the checker reports 3 and 4 dependent but 4 and 3 independent: the path
search finds the active path `[3, 1, 2, 4]` in one direction only, so
`checkIndependence` is not symmetric. -/
theorem checkIndependence_asymmetric :
    checkIndependence netAsym 3 4 [2] = false ∧
    checkIndependence netAsym 4 3 [2] = true := by
  refine ⟨by decide, by decide⟩

/-- C7: under Python 3 the validation of `IndependenceChecker.__init__`
always crashes instead of reporting an input error: a non-empty query reaches
`self.nodes.has_key(n)` (`AttributeError`), an empty query reaches the
undefined name `tkMessageBox` (`NameError`), and no call ever reaches the
d-separation traversal. -/
theorem checkerInit_crashes :
    checkerInit netDiamond [1, 2] [] = InitOutcome.attributeError ∧
    checkerInit netDiamond [] [] = InitOutcome.nameError ∧
    ∀ (net : Net) (query evidence : List Int) (r : Bool),
      checkerInit net query evidence ≠ InitOutcome.checked r := by
  refine ⟨rfl, rfl, ?_⟩
  intro net query evidence r
  cases query <;> simp [checkerInit]

/-- Folding `runStep` from any accumulator adds the weight sums of the
evidence-and-query-consistent and the evidence-consistent samples. -/
theorem foldl_runStep_eq (evidence query : List Int) :
    ∀ (samples : List (ℚ × List Int)) (acc : ℚ × ℚ),
      samples.foldl (runStep evidence query) acc =
        (acc.1 + ((samples.filter fun ws =>
            sampleMatches ws.2 evidence && sampleMatches ws.2 query).map
              Prod.fst).sum,
         acc.2 + ((samples.filter fun ws =>
            sampleMatches ws.2 evidence).map Prod.fst).sum) := by
  intro samples
  induction samples with
  | nil => intro acc; simp
  | cons ws rest ih =>
    intro acc
    rw [List.foldl_cons, ih]
    by_cases he : sampleMatches ws.2 evidence = true
    · by_cases hq : sampleMatches ws.2 query = true
      · simp [runStep, he, hq, List.filter_cons, add_assoc]
      · simp [runStep, he, hq, List.filter_cons, add_assoc]
    · simp [runStep, he, List.filter_cons]

/-- C5: starting from zero, a sample's weight enters the denominator exactly
when the sample is evidence-consistent and additionally the numerator exactly
when it is also query-consistent; with nonnegative weights, the final report
is the quotient when the denominator is positive and the distinct no-match
outcome otherwise. -/
theorem run_totals_spec (evidence query : List Int)
    (samples : List (ℚ × List Int)) (hw : ∀ ws ∈ samples, 0 ≤ ws.1) :
    runTotals evidence query samples =
      (((samples.filter fun ws =>
          sampleMatches ws.2 evidence && sampleMatches ws.2 query).map
            Prod.fst).sum,
       ((samples.filter fun ws => sampleMatches ws.2 evidence).map
          Prod.fst).sum) ∧
    (0 < (runTotals evidence query samples).2 →
      runResult evidence query samples =
        RunOutcome.estimate ((runTotals evidence query samples).1 /
          (runTotals evidence query samples).2)) ∧
    (¬ 0 < (runTotals evidence query samples).2 →
      runResult evidence query samples = RunOutcome.noSamplesMatched) := by
  have htot : runTotals evidence query samples =
      (((samples.filter fun ws =>
          sampleMatches ws.2 evidence && sampleMatches ws.2 query).map
            Prod.fst).sum,
       ((samples.filter fun ws => sampleMatches ws.2 evidence).map
          Prod.fst).sum) := by
    have h := foldl_runStep_eq evidence query samples (0, 0)
    simpa [runTotals] using h
  refine ⟨htot, ?_, ?_⟩
  · intro hpos
    unfold runResult
    rw [if_neg (ne_of_gt hpos)]
  · intro hnpos
    have hnn : 0 ≤ (runTotals evidence query samples).2 := by
      rw [htot]
      apply List.sum_nonneg
      intro x hx
      rcases List.mem_map.mp hx with ⟨ws, hws, rfl⟩
      exact hw ws (List.mem_of_mem_filter hws)
    have hz : (runTotals evidence query samples).2 = 0 :=
      le_antisymm (not_lt.mp hnpos) hnn
    unfold runResult
    rw [if_pos hz]

/-- Witness for `run_totals_spec` on a concrete stream: evidence `{1}`, query
`{2}`, samples `{1,2}` with weight 1, `{1}` with weight 2, `{3}` with weight
3, giving the estimate `1/3`. -/
theorem run_totals_spec_witness :
    runResult [1] [2] [((1 : ℚ), [1, 2]), (2, [1]), (3, [3])] =
      RunOutcome.estimate (1 / 3) := by
  have h := run_totals_spec [1] [2] [((1 : ℚ), [1, 2]), (2, [1]), (3, [3])]
    (by intro ws hws; fin_cases hws <;> norm_num)
  have hd : (runTotals [1] [2] [((1 : ℚ), [1, 2]), (2, [1]), (3, [3])]).2 =
      0 + 1 + 2 := rfl
  have hn : (runTotals [1] [2] [((1 : ℚ), [1, 2]), (2, [1]), (3, [3])]).1 =
      0 + 1 := rfl
  have hpos : 0 < (runTotals [1] [2] [((1 : ℚ), [1, 2]), (2, [1]), (3, [3])]).2 := by
    rw [hd]; norm_num
  rw [h.2.1 hpos, hd, hn]
  norm_num

/-- C10: when the evidence covers every node by magnitude the Gibbs working
set is empty, and a run of at least one iteration aborts inside
`random.choice` without producing any result. -/
theorem gibbs_empty_working_set (net nodes : Net) (evidence : List Int)
    (state : List Int) (oracle : List (Nat × ℚ))
    (hcover : ∀ n ∈ nodes, n.name ∈ evidence.map fun e => |e|)
    (hne : oracle ≠ []) :
    gibbsLoop net (gibbsVariables nodes evidence) state oracle = none := by
  have hvars : gibbsVariables nodes evidence = [] := by
    unfold gibbsVariables
    rw [List.filter_eq_nil_iff]
    intro n hn
    simp [hcover n hn]
  rw [hvars]
  cases oracle with
  | nil => exact absurd rfl hne
  | cons kr rest =>
    obtain ⟨k, r⟩ := kr
    simp [gibbsLoop, gibbsSampleStep, gibbsChoose]

/-- Witness for `gibbs_empty_working_set` on a one-node network whose sole
node is evidence-clamped. -/
theorem gibbs_empty_working_set_witness :
    gibbsLoop [⟨1, [], [], []⟩] (gibbsVariables [⟨1, [], [], []⟩] [1]) [] [(0, 0)] =
      none :=
  gibbs_empty_working_set [⟨1, [], [], []⟩] [⟨1, [], [], []⟩] [1] [] [(0, 0)]
    (by decide) (by simp)

/-- Toggling one node leaves membership of every other identifier unchanged. -/
theorem gibbsStep_mem_of_ne (net : Net) (state : List Int) (node : BayesNode)
    (r : ℚ) (m : Int) (hm : m ≠ node.name) :
    m ∈ gibbsStep net state node r ↔ m ∈ state := by
  unfold gibbsStep
  by_cases hr : r < computeProbability net node state
  · rw [if_pos hr]
    by_cases hmem : node.name ∈ state
    · rw [if_neg (not_not_intro hmem), if_pos hmem]
      exact List.mem_erase_of_ne hm
    · rw [if_pos hmem]
      simp [hm]
  · rw [if_neg hr]

/-- The evidence clamp survives any sequence of working-set toggles. -/
theorem gibbsRunState_clamp_aux (net nodes : Net) (evidence : List Int) :
    ∀ (picks : List (BayesNode × ℚ)) (state : List Int),
      (∀ pr ∈ picks, pr.1 ∈ gibbsVariables nodes evidence) →
      (∀ e ∈ evidence, 0 < e → e ∈ state) →
      (∀ e ∈ evidence, e < 0 → -e ∉ state) →
      (∀ e ∈ evidence, 0 < e → e ∈ gibbsRunState net picks state) ∧
      (∀ e ∈ evidence, e < 0 → -e ∉ gibbsRunState net picks state) := by
  intro picks
  induction picks with
  | nil =>
    intro state _ hpos hneg
    exact ⟨fun e he h0 => by simpa [gibbsRunState] using hpos e he h0,
           fun e he h0 => by simpa [gibbsRunState] using hneg e he h0⟩
  | cons pr rest ih =>
    intro state hpick hpos hneg
    have hprv : pr.1 ∈ gibbsVariables nodes evidence :=
      hpick pr (List.mem_cons_self pr rest)
    have hname : pr.1.name ∉ evidence.map fun e => |e| := by
      have hsplit : pr.1 ∈ nodes ∧ ∀ x ∈ evidence, ¬|x| = pr.1.name := by
        simpa [gibbsVariables] using hprv
      intro hmem
      rcases List.mem_map.mp hmem with ⟨x, hx, hxe⟩
      exact hsplit.2 x hx hxe
    have hstep : gibbsRunState net (pr :: rest) state =
        gibbsRunState net rest (gibbsStep net state pr.1 pr.2) := rfl
    rw [hstep]
    apply ih
    · intro q hq
      exact hpick q (List.mem_cons_of_mem pr hq)
    · intro e he h0
      have hne : e ≠ pr.1.name := by
        intro heq
        apply hname
        rw [← heq]
        exact List.mem_map.mpr ⟨e, he, by simp [abs_of_pos h0]⟩
      exact (gibbsStep_mem_of_ne net state pr.1 pr.2 e hne).mpr (hpos e he h0)
    · intro e he h0
      have hne : -e ≠ pr.1.name := by
        intro heq
        apply hname
        rw [← heq]
        exact List.mem_map.mpr ⟨e, he, by simp [abs_of_neg h0]⟩
      intro hmem
      exact hneg e he h0
        ((gibbsStep_mem_of_ne net state pr.1 pr.2 (-e) hne).mp hmem)

/-- C8: the Gibbs state starts as exactly the positive evidence literals, the
working set is exactly the nodes not named in the evidence by magnitude, and
after any sequence of iterations that toggle only working-set nodes every
positive evidence id is still present and no negative evidence id's magnitude
has appeared (evidence without contradictory literals, as the data model
requires). -/
theorem gibbs_clamp_invariant (net nodes : Net) (evidence : List Int)
    (picks : List (BayesNode × ℚ))
    (hpick : ∀ pr ∈ picks, pr.1 ∈ gibbsVariables nodes evidence)
    (hcons : ∀ e ∈ evidence, -e ∉ evidence) :
    (∀ x : Int, x ∈ gibbsInitState evidence ↔ x ∈ evidence ∧ 0 < x) ∧
    (∀ n : BayesNode, n ∈ gibbsVariables nodes evidence ↔
      n ∈ nodes ∧ n.name ∉ evidence.map fun e => |e|) ∧
    (∀ e ∈ evidence, 0 < e →
      e ∈ gibbsRunState net picks (gibbsInitState evidence)) ∧
    (∀ e ∈ evidence, e < 0 →
      -e ∉ gibbsRunState net picks (gibbsInitState evidence)) := by
  have hinit_pos : ∀ e ∈ evidence, 0 < e → e ∈ gibbsInitState evidence := by
    intro e he h0
    simp [gibbsInitState, List.mem_filter, he, h0]
  have hinit_neg : ∀ e ∈ evidence, e < 0 → -e ∉ gibbsInitState evidence := by
    intro e he _ hmem
    exact hcons e he (List.mem_filter.mp hmem).1
  have haux := gibbsRunState_clamp_aux net nodes evidence picks
    (gibbsInitState evidence) hpick hinit_pos hinit_neg
  refine ⟨?_, ?_, haux.1, haux.2⟩
  · intro x
    simp [gibbsInitState, List.mem_filter]
  · intro n
    simp [gibbsVariables, List.mem_filter]

/-- Witness for `gibbs_clamp_invariant`: three isolated nodes, evidence
`{1, not 3}`, two toggles of the working node 2; afterwards 1 is still in the
state and 3 still absent. -/
theorem gibbs_clamp_invariant_witness :
    1 ∈ gibbsRunState [] gibbsPicks (gibbsInitState [1, -3]) ∧
    (3 : Int) ∉ gibbsRunState [] gibbsPicks (gibbsInitState [1, -3]) := by
  have h := gibbs_clamp_invariant [] gibbsNodes [1, -3] gibbsPicks
    (by decide) (by decide)
  refine ⟨h.2.2.1 1 (by decide) (by decide), ?_⟩
  have hneg := h.2.2.2 (-3) (by decide) (by decide)
  simpa using hneg

/-- The path accumulator of the search only grows. -/
theorem bfsPaths_mem_acc (net : Net) (b : Int) :
    ∀ (fuel : Nat) (visited : List Int) (queue : List (Int × List Int))
      (acc : List (List Int)) (p : List Int),
      p ∈ acc → p ∈ bfsPaths net b fuel visited queue acc := by
  intro fuel
  induction fuel with
  | zero =>
    intro visited queue acc p hp
    cases queue with
    | nil => simpa [bfsPaths] using hp
    | cons e rest => simpa [bfsPaths] using hp
  | succ f ih =>
    intro visited queue acc p hp
    cases queue with
    | nil => simpa [bfsPaths] using hp
    | cons e rest =>
      obtain ⟨node, path⟩ := e
      simp only [bfsPaths]
      apply ih
      by_cases hb : (node == b) = true
      · rw [if_pos hb]
        exact List.mem_append_left _ hp
      · rw [if_neg hb]
        exact hp

/-- Querying a node against itself always enumerates the one-node path. -/
theorem getPaths_self_mem (net : Net) (a : Int) : [a] ∈ getPaths net a a := by
  unfold getPaths
  simp only [bfsPaths]
  apply bfsPaths_mem_acc
  simp

/-- C3 counterexample: on the one-node network the self-query
`checkIndependence(1, 1, {})` reports dependent, not independent as the claim
states. -/
theorem checkIndependence_self_cx :
    checkIndependence netSelf 1 1 [] = false := by decide

/-- C3 amended: when the path enumeration is empty the pair is reported
independent, but a query of a live node with itself enumerates the single
path `[a]`, which has no middle triple and counts as fully active, so the
checker reports the pair dependent. -/
theorem checkIndependence_no_path_or_self (net : Net) (a b : Int)
    (E : List Int) :
    (getPaths net a b = [] → checkIndependence net a b E = true) ∧
    checkIndependence net a a E = false := by
  constructor
  · intro h
    unfold checkIndependence
    rw [h]
    rfl
  · apply Bool.eq_false_iff.mpr
    intro hall
    unfold checkIndependence at hall
    rw [List.all_eq_true] at hall
    have h := hall [a] (getPaths_self_mem net a)
    simp [checkPath] at h

/-- Witness for `checkIndependence_no_path_or_self` on two isolated nodes. -/
theorem checkIndependence_no_path_or_self_witness :
    checkIndependence netTwoIso 1 2 [] = true ∧
    checkIndependence netTwoIso 1 1 [] = false :=
  ⟨(checkIndependence_no_path_or_self netTwoIso 1 2 []).1 (by decide),
   (checkIndependence_no_path_or_self netTwoIso 1 1 []).2⟩

/-- In a mirrored network a recorded parent link is exactly the reversed
child link, for arbitrary names. -/
theorem mirrored_parent_iff {net : Net} (h : Mirrored net) (u v : Int) :
    u ∈ (findNode net v).parents ↔ v ∈ (findNode net u).children := by
  constructor
  · intro hu
    rcases findNode_cases net v with hm | hd
    · have hx := h.1 (findNode net v) hm u hu
      rwa [findNode_name] at hx
    · rw [hd] at hu
      simp at hu
  · intro hv
    rcases findNode_cases net u with hm | hd
    · have hx := h.2 (findNode net u) hm v hv
      rwa [findNode_name] at hx
    · rw [hd] at hv
      simp at hv

/-- A child has strictly smaller topological rank than the node it hangs
from. -/
theorem rank_child_lt (net : Net) (rank : Int → Nat)
    (hrank : ∀ node ∈ net, ∀ c ∈ node.children, rank c < rank node.name)
    {y c : Int} (hc : c ∈ (findNode net y).children) : rank c < rank y := by
  rcases findNode_cases net y with hm | hd
  · have hx := hrank (findNode net y) hm c hc
    rwa [findNode_name] at hx
  · rw [hd] at hc
    simp at hc

/-- A descendant carrying evidence makes the fueled search succeed whenever
the fuel exceeds the rank of the starting node. -/
theorem reaches_hasEvidence (net : Net) (rank : Int → Nat)
    (hrank : ∀ node ∈ net, ∀ c ∈ node.children, rank c < rank node.name)
    (E : List Int) :
    ∀ {y d : Int}, Reaches net y d → d ∈ E →
      ∀ fuel : Nat, rank y < fuel → hasEvidence net fuel y E = true := by
  intro y d hr
  induction hr with
  | refl n =>
    intro hd fuel hf
    cases fuel with
    | zero => exact absurd hf (Nat.not_lt_zero _)
    | succ f => simp [hasEvidence, hd]
  | step hc _ ih =>
    intro hd fuel hf
    cases fuel with
    | zero => exact absurd hf (Nat.not_lt_zero _)
    | succ f =>
      simp only [hasEvidence, Bool.or_eq_true, List.any_eq_true]
      refine Or.inr ⟨_, hc, ih hd f ?_⟩
      have h1 := rank_child_lt net rank hrank hc
      omega

/-- A successful fueled search exhibits a descendant carrying evidence. -/
theorem hasEvidence_reaches (net : Net) (E : List Int) :
    ∀ (fuel : Nat) (y : Int), hasEvidence net fuel y E = true →
      ∃ d, Reaches net y d ∧ d ∈ E := by
  intro fuel
  induction fuel with
  | zero =>
    intro y h
    simp [hasEvidence] at h
  | succ f ih =>
    intro y h
    simp only [hasEvidence, Bool.or_eq_true, List.any_eq_true,
      decide_eq_true_eq] at h
    rcases h with hy | ⟨c, hc, hcev⟩
    · exact ⟨y, Reaches.refl y, hy⟩
    · rcases ih c hcev with ⟨d, hr, hd⟩
      exact ⟨d, Reaches.step hc hr, hd⟩

/-- The code's causal-chain test agrees with the claim's arrow patterns on a
mirrored network. -/
theorem isCausalChain_iff {net : Net} (h : Mirrored net) (x y z : Int) :
    isCausalChain net x y z = true ↔ CausalChainSpec net x y z := by
  unfold isCausalChain CausalChainSpec EdgeTo BayesNode.isChild
    BayesNode.isParent
  simp only [Bool.or_eq_true, Bool.and_eq_true, decide_eq_true_eq,
    findNode_name]
  rw [mirrored_parent_iff h y x, mirrored_parent_iff h z y]
  tauto

/-- The code's common-cause test agrees with the claim's arrow pattern on a
mirrored network. -/
theorem isCommonCause_iff {net : Net} (h : Mirrored net) (x y z : Int) :
    isCommonCause net x y z = true ↔ CommonCauseSpec net x y z := by
  unfold isCommonCause CommonCauseSpec EdgeTo BayesNode.isParent
  simp only [Bool.and_eq_true, decide_eq_true_eq, findNode_name]
  rw [mirrored_parent_iff h y x, mirrored_parent_iff h y z]

/-- On a mirrored acyclic network the code's `isActive` computes exactly the
claim's active-triple rule. -/
theorem isActive_iff (net : Net) (rank : Int → Nat) (hm : Mirrored net)
    (hrank : ∀ node ∈ net, ∀ c ∈ node.children, rank c < rank node.name)
    (hbound : ∀ node ∈ net, rank node.name ≤ net.length)
    (x y z : Int) (E : List Int) :
    isActive net x y z E = true ↔ ActiveSpec net x y z E := by
  have hchain := isCausalChain_iff hm x y z
  have hcc := isCommonCause_iff hm x y z
  have hev : hasEvidence net (net.length + 1) y E = true ↔
      ∃ d, Reaches net y d ∧ d ∈ E := by
    constructor
    · exact hasEvidence_reaches net E (net.length + 1) y
    · rintro ⟨d, hr, hd⟩
      rcases findNode_cases net y with hmem | hdead
      · have hb := hbound (findNode net y) hmem
        rw [findNode_name] at hb
        exact reaches_hasEvidence net rank hrank E hr hd (net.length + 1)
          (Nat.lt_succ_of_le hb)
      · cases hr with
        | refl => simp [hasEvidence, hd]
        | step hc _ =>
          rw [hdead] at hc
          simp at hc
  by_cases hP : CausalChainSpec net x y z ∨ CommonCauseSpec net x y z
  · have hAS : ActiveSpec net x y z E ↔ y ∉ E := by
      unfold ActiveSpec
      constructor
      · rintro (⟨_, hyE⟩ | ⟨hnP, _⟩)
        · exact hyE
        · exact absurd hP hnP
      · intro hyE
        exact Or.inl ⟨hP, hyE⟩
    rw [hAS]
    by_cases hcb : isCausalChain net x y z = true
    · by_cases hyE : y ∈ E <;> simp [isActive, hcb, hyE]
    · have hccb : isCommonCause net x y z = true := by
        rcases hP with hc | hc
        · exact absurd (hchain.mpr hc) hcb
        · exact hcc.mpr hc
      have hcbf : isCausalChain net x y z = false := Bool.eq_false_iff.mpr hcb
      by_cases hyE : y ∈ E <;> simp [isActive, hcbf, hccb, hyE]
  · have hcbf : isCausalChain net x y z = false :=
      Bool.eq_false_iff.mpr fun hcb => hP (Or.inl (hchain.mp hcb))
    have hccf : isCommonCause net x y z = false :=
      Bool.eq_false_iff.mpr fun hcb => hP (Or.inr (hcc.mp hcb))
    have hAS : ActiveSpec net x y z E ↔ (∃ d, Reaches net y d ∧ d ∈ E) := by
      unfold ActiveSpec
      constructor
      · rintro (⟨hp, _⟩ | ⟨_, hyE | hex⟩)
        · exact absurd hp hP
        · exact ⟨y, Reaches.refl y, hyE⟩
        · exact hex
      · intro hex
        exact Or.inr ⟨hP, Or.inr hex⟩
    rw [hAS, ← hev]
    by_cases hyE : y ∈ E <;> simp [isActive, hcbf, hccf, hyE]

/-- A path passes `checkPath` exactly when some consecutive triple of it is
inactive for the code's `isActive`. -/
theorem checkPath_iff (net : Net) (E : List Int) :
    ∀ p : List Int, checkPath net p E = true ↔
      ∃ i : Nat, i + 2 < p.length ∧
        isActive net (p.getD i 0) (p.getD (i + 1) 0) (p.getD (i + 2) 0) E
          = false := by
  intro p
  induction p with
  | nil =>
    constructor
    · intro h
      simp [checkPath] at h
    · rintro ⟨i, hi, _⟩
      simp at hi
  | cons x tail ih =>
    cases tail with
    | nil =>
      constructor
      · intro h
        simp [checkPath] at h
      · rintro ⟨i, hi, _⟩
        simp at hi
    | cons y tail2 =>
      cases tail2 with
      | nil =>
        constructor
        · intro h
          simp [checkPath] at h
        · rintro ⟨i, hi, _⟩
          simp at hi
      | cons z rest =>
        by_cases ha : isActive net x y z E = true
        · rw [checkPath, if_pos ha, ih]
          constructor
          · rintro ⟨j, hj, hact⟩
            refine ⟨j + 1, ?_, ?_⟩
            · simp only [List.length_cons] at hj ⊢
              omega
            · simpa [List.getD_cons_succ] using hact
          · rintro ⟨i, hi, hact⟩
            cases i with
            | zero =>
              simp only [List.getD_cons_zero, List.getD_cons_succ] at hact
              exact absurd hact (by simp [ha])
            | succ j =>
              refine ⟨j, ?_, ?_⟩
              · simp only [List.length_cons] at hi ⊢
                omega
              · simpa [List.getD_cons_succ] using hact
        · have haf : isActive net x y z E = false := Bool.eq_false_iff.mpr ha
          rw [checkPath, if_neg ha]
          constructor
          · intro _
            refine ⟨0, ?_, ?_⟩
            · simp only [List.length_cons]
              omega
            · simpa [List.getD_cons_zero, List.getD_cons_succ] using haf
          · intro _
            rfl

/-- C1: on a mirrored acyclic network (a topological rank bounded by the node
count exists), `checkIndependence(a, b, E)` reports independence exactly when
every enumerated path contains a consecutive middle triple that is inactive
under the claim's rule: a causal chain or common cause is active iff its
middle node is unevidenced, and a collider is active iff its middle node or
one of its descendants is evidenced. -/
theorem checkIndependence_iff_blocked (net : Net) (a b : Int) (E : List Int)
    (rank : Int → Nat) (hm : Mirrored net)
    (hrank : ∀ node ∈ net, ∀ c ∈ node.children, rank c < rank node.name)
    (hbound : ∀ node ∈ net, rank node.name ≤ net.length) :
    checkIndependence net a b E = true ↔
      ∀ p ∈ getPaths net a b, ∃ i : Nat, i + 2 < p.length ∧
        ¬ ActiveSpec net (p.getD i 0) (p.getD (i + 1) 0) (p.getD (i + 2) 0)
          E := by
  have key : ∀ p : List Int, checkPath net p E = true ↔
      ∃ i : Nat, i + 2 < p.length ∧
        ¬ ActiveSpec net (p.getD i 0) (p.getD (i + 1) 0) (p.getD (i + 2) 0)
          E := by
    intro p
    rw [checkPath_iff net E p]
    refine exists_congr fun i => and_congr_right fun _ => ?_
    rw [← isActive_iff net rank hm hrank hbound (p.getD i 0)
      (p.getD (i + 1) 0) (p.getD (i + 2) 0) E]
    constructor
    · intro hf
      rw [hf]
      simp
    · intro hnf
      exact Bool.eq_false_iff.mpr hnf
  unfold checkIndependence
  rw [List.all_eq_true]
  constructor
  · intro h p hp
    exact (key p).mp (h p hp)
  · intro h p hp
    exact (key p).mpr (h p hp)

/-- Witness for `checkIndependence_iff_blocked` on the concrete network
`netAsym` with its topological rank. -/
theorem checkIndependence_iff_blocked_witness :
    Mirrored netAsym ∧
    (checkIndependence netAsym 3 4 [2] = true ↔
      ∀ p ∈ getPaths netAsym 3 4, ∃ i : Nat, i + 2 < p.length ∧
        ¬ ActiveSpec netAsym (p.getD i 0) (p.getD (i + 1) 0) (p.getD (i + 2) 0)
          [2]) :=
  ⟨by decide,
   checkIndependence_iff_blocked netAsym 3 4 [2] rankAsym (by decide)
     (by decide) (by decide)⟩

end Bayes
